import Mathlib

/-!
Verification of the QTLab instrument drivers against their specification.

The development shallowly embeds the two source files:

* `qtlab_013/source/lib/dll_support/andor.py` — the Andor camera binding
  (status polling via `wait_idle`, acquisition via `get_spectrum`, and the
  anomaly-aware `get_spectrum_adv` retry loop);
* `bilby/instrument_plugins/x_Yokogawa_7651.py` — the Yokogawa 7651 voltage
  source driver (`get_all`, `do_set_status`, and the parameter declarations).

Machine integers are modelled as `Int` (the int32 buffers never overflow in
the scenarios of interest), floats as `ℚ`, and fallible Python code returns
`Except PyExc`.  The spectra handed to `get_spectrum_adv` by `get_spectrum`
are abstracted as a scripted sequence `Nat → Except PyExc (List Int)`,
mirroring the scripted frame sequences of the specification.
-/

/-- Python-level failures observable from the embedded code.  `channelExc`
stands for an exception raised inside a device-channel call (ctypes / VISA),
carrying an opaque identifying code. -/
inductive PyExc where
  | nameError
  | indexError
  | valueError
  | channelExc (code : Int)
deriving DecidableEq

namespace Andor

/-- Andor SDK status code: acquisition in progress (andor.py line 72). -/
def DRV_ACQUIRING : Int := 20072

/-- Andor SDK status code: device idle (andor.py line 73). -/
def DRV_IDLE : Int := 20073

/-- Andor SDK return code: success (andor.py line 6). -/
def DRV_SUCCESS : Int := 20002

/-- Andor SDK return code: first parameter invalid (andor.py line 66). -/
def DRV_P1INVALID : Int := 20066

/-- Maximum of a numpy int array (`np.max`).  The empty case is guarded by a
`valueError` before every use, as `np.max` raises on an empty array. -/
def npMax : List Int → Int
  | [] => 0
  | x :: xs => xs.foldl max x

/-- Index of the first occurrence of the maximum (`np.argmax`). -/
def npArgmax (l : List Int) : Nat := l.indexOf (npMax l)

/-- Numpy integer indexing `spec[i]`: a negative index wraps once from the
end of the buffer; anything outside `[-len, len)` raises `IndexError`
(modelled as `none`). -/
def pyIndex (l : List Int) (i : Int) : Option Int :=
  if 0 ≤ i then l.get? i.toNat
  else if -i ≤ (l.length : Int) then l.get? ((l.length : Int) + i).toNat
  else none

/-- The optional background subtraction `spec -= background`
(elementwise on same-length int buffers, andor.py lines 331-332). -/
def procFrame (background : Option (List Int)) (f : List Int) : List Int :=
  match background with
  | none => f
  | some b => List.zipWith (fun x y => x - y) f b

/-- The bad-pixel acceptance test of `get_spectrum_adv` (andor.py lines
343-345): the peak is fine if it sits at an edge of the buffer or an
immediate neighbour reaches `maxval * thresh`. -/
def spikeOk (spec : List Int) (thresh : ℚ) : Bool :=
  let maxval := npMax spec
  let minval : ℚ := (maxval : ℚ) * thresh
  let maxpos := npArgmax spec
  ((maxpos == 0) || decide (minval ≤ ((spec.getD (maxpos - 1) 0 : Int) : ℚ)))
    || ((maxpos == spec.length - 1)
        || decide (minval ≤ ((spec.getD (maxpos + 1) 0 : Int) : ℚ)))

/-- The acceptance condition in the words of the specification: the left
neighbour of the maximum is at or above `maxval * spike_threshold`, or the
right neighbour is, a maximum at the first or last sample passing
automatically on the missing side. -/
def acceptCond (spec : List Int) (thresh : ℚ) : Prop :=
  (npArgmax spec = 0
      ∨ (npMax spec : ℚ) * thresh ≤ ((spec.getD (npArgmax spec - 1) 0 : Int) : ℚ))
    ∨ (npArgmax spec = spec.length - 1
      ∨ (npMax spec : ℚ) * thresh ≤ ((spec.getD (npArgmax spec + 1) 0 : Int) : ℚ))

instance (spec : List Int) (thresh : ℚ) : Decidable (acceptCond spec thresh) := by
  unfold acceptCond; infer_instance

/-- The index range `range(maxpos-5, maxpos+5)` of the diagnostic print loop
(andor.py line 351). -/
def diagRange (maxpos : Nat) : List Int :=
  (List.range 10).map (fun (j : Nat) => (maxpos : Int) - 5 + (j : Int))

/-- The diagnostic print loop: reads `spec[i]` for each index, raising
`IndexError` as numpy does on an out-of-range index (andor.py lines 351-352). -/
def diagAux (spec : List Int) : List Int → Except PyExc (List (Int × Int))
  | [] => .ok []
  | i :: rest =>
    match pyIndex spec i with
    | none => .error .indexError
    | some v =>
      match diagAux spec rest with
      | .error e => .error e
      | .ok d => .ok ((i, v) :: d)

/-- Result of `get_spectrum_adv`, following the Acquisition Result of the
specification: the returned samples, the anomaly flag (set exactly when the retry
budget was exhausted), the number of attempts consumed, and the diagnostic
neighbourhood printed on exhaustion. -/
structure AcqResult where
  spec : List Int
  anomaly : Bool
  attempts : Nat
  diag : List (Int × Int)
deriving DecidableEq

/-- The retry loop of `get_spectrum_adv` (andor.py lines 330-353).  `k` is
the number of attempts already consumed, the second argument the remaining
tries, and `last` the `(spec, maxpos)` locals left by the last rejected
attempt (`none` when the loop body never ran, in which case the diagnostic
code hits an unbound `maxpos`, a Python `NameError`). -/
def advLoop (frames : Nat → Except PyExc (List Int)) (background : Option (List Int))
    (thresh : ℚ) : Nat → Nat → Option (List Int × Nat) → Except PyExc AcqResult
  | k, 0, last =>
    match last with
    | none => .error .nameError
    | some (spec, maxpos) =>
      match diagAux spec (diagRange maxpos) with
      | .error e => .error e
      | .ok d => .ok ⟨spec, true, k, d⟩
  | k, r + 1, _ =>
    match frames k with
    | .error e => .error e
    | .ok f =>
      let spec := procFrame background f
      if spec.isEmpty then .error .valueError
      else if npMax spec < 100 then .ok ⟨spec, false, k + 1, []⟩
      else if spikeOk spec thresh then .ok ⟨spec, false, k + 1, []⟩
      else advLoop frames background thresh (k + 1) r (some (spec, npArgmax spec))

/-- `get_spectrum_adv(background, ntries, thresh)` (andor.py lines 323-353),
with the frames produced by the successive `get_spectrum()` calls scripted
by `frames`. -/
def get_spectrum_adv (frames : Nat → Except PyExc (List Int))
    (background : Option (List Int)) (ntries : Nat) (thresh : ℚ) :
    Except PyExc AcqResult :=
  advLoop frames background thresh 0 ntries none

/-- Number of polls the `wait_idle` loop can make before `delay` elapses:
poll `k` happens at elapsed time `k/2` seconds (`time.sleep(0.5)` between
polls), so polls run exactly while `k/2 < delay`. -/
def numPolls (delay : ℚ) : Nat := (⌈2 * delay⌉).toNat

/-- The `while (time.time() - start) < delay` loop of `wait_idle` (andor.py
lines 303-309), polling `status k` at elapsed time `k/2`.  The fuel argument
counts the remaining polls before the timeout: the wrapper starts it at
`numPolls delay`, so fuel exhaustion coincides with the time check failing. -/
def wait_idle_loop (status : Nat → Int) (delay : ℚ) : Nat → Nat → Bool
  | _, 0 => false
  | k, fuel + 1 =>
    if (k : ℚ) / 2 < delay then
      if status k = DRV_IDLE then true
      else wait_idle_loop status delay (k + 1) fuel
    else false

/-- `wait_idle(delay)` (andor.py lines 303-309): `True` when a poll saw
`DRV_IDLE` before the timeout, `False` when the timeout elapsed first. -/
def wait_idle (status : Nat → Int) (delay : ℚ) : Bool :=
  wait_idle_loop status delay 0 (numPolls delay)

/-- The raw Andor DLL entry points used by one acquisition, as seen through
ctypes: each call yields its DLL return code alongside its out-parameters,
or raises a Python exception.  `GetStatus` is indexed by poll number. -/
structure AndorCalls where
  StartAcquisition : Except PyExc Int
  GetStatus : Nat → Except PyExc (Int × Int)
  GetAcquiredData : Nat → Except PyExc (Int × List Int)

/-- `start_acquisition` (andor.py lines 295-297): hands the DLL return code
back to its caller. -/
def start_acquisition (c : AndorCalls) : Except PyExc Int :=
  c.StartAcquisition

/-- `get_status` (andor.py lines 299-302): returns the polled status value;
the DLL return code `ret` of `GetStatus` is discarded. -/
def get_status (c : AndorCalls) (k : Nat) : Except PyExc Int :=
  match c.GetStatus k with
  | .error e => .error e
  | .ok rs => .ok rs.2

/-- `get_acquired_data` (andor.py lines 311-314): returns the buffer; the
DLL return code `ret` of `GetAcquiredData` is discarded. -/
def get_acquired_data (c : AndorCalls) (bufsize : Nat) : Except PyExc (List Int) :=
  match c.GetAcquiredData bufsize with
  | .error e => .error e
  | .ok rd => .ok rd.2

/-- The `while get_status() == DRV_ACQUIRING` loop of `get_spectrum`
(andor.py lines 318-319); `fuel` bounds the number of polls modelled. -/
def acqWait (c : AndorCalls) : Nat → Nat → Except PyExc Unit
  | _, 0 => .ok ()
  | k, fuel + 1 =>
    match get_status c k with
    | .error e => .error e
    | .ok s => if s = DRV_ACQUIRING then acqWait c (k + 1) fuel else .ok ()

/-- `get_spectrum` (andor.py lines 316-322): start the acquisition (its DLL
return code is discarded by the bare `start_acquisition()` statement), wait
until the device stops acquiring, then fetch the buffer. -/
def get_spectrum (c : AndorCalls) (xpix fuel : Nat) : Except PyExc (List Int) :=
  match start_acquisition c with
  | .error e => .error e
  | .ok _ =>
    match acqWait c 0 fuel with
    | .error e => .error e
    | .ok _ => get_acquired_data c xpix

/-- A channel whose buffer fetch reports the DLL failure code
`DRV_P1INVALID` while leaving the zero-initialised buffer untouched. -/
def failingFetchChannel : AndorCalls where
  StartAcquisition := .ok DRV_SUCCESS
  GetStatus := fun _ => .ok (DRV_SUCCESS, DRV_IDLE)
  GetAcquiredData := fun n => .ok (DRV_P1INVALID, List.replicate n 0)

end Andor

namespace Yoko

/-- Access modes of the qtlab parameter framework, as used by the driver's
declarations: `FLAG_GETSET`, `FLAG_GETSET | FLAG_GET_AFTER_SET` and
`FLAG_SET` (x_Yokogawa_7651.py lines 68-78). -/
inductive AccessMode where
  | readWrite
  | readWriteConfirmed
  | writeOnly
deriving DecidableEq

/-- The parameter descriptors in declaration order: the `add_parameter`
calls of `x_Yokogawa_7651.__init__` (lines 68-78). -/
def declaredParams : List (String × AccessMode) :=
  [("range", .readWriteConfirmed), ("voltage", .readWriteConfirmed),
   ("current_limit", .readWrite), ("status", .writeOnly)]

/-- Whether an access mode permits reads (`FLAG_SET` alone does not). -/
def readable : AccessMode → Bool
  | .writeOnly => false
  | _ => true

/-- The read-accessible parameter names in descriptor-declaration order. -/
def declarationReadOrder : List String :=
  (declaredParams.filter (fun p => readable p.2)).map Prod.fst

/-- The reads actually issued by `get_all`, in source order:
`self.get_voltage(); self.get_range(); self.get_current_limit()`
(x_Yokogawa_7651.py lines 121-125). -/
def get_all_order : List String := ["voltage", "range", "current_limit"]

/-- Modelled from the spec: the caching `get` path of the Parameter Registry (the
`Instrument` base class the driver calls into is not part of the repository
sources).  Each successful read updates the cache entry for that name; the
first failing read aborts the remaining reads and surfaces its error. -/
def get_all_go (read : String → Except PyExc ℚ) :
    List String → (String → Option ℚ) → (String → Option ℚ) × Option PyExc
  | [], cache => (cache, none)
  | p :: rest, cache =>
    match read p with
    | .error e => (cache, some e)
    | .ok v => get_all_go read rest (fun q => if q = p then some v else cache q)

/-- `get_all` (x_Yokogawa_7651.py lines 111-125): reads voltage, range and
current_limit through the caching `get` path of the registry. -/
def get_all (read : String → Except PyExc ℚ) (cache : String → Option ℚ) :
    (String → Option ℚ) × Option PyExc :=
  get_all_go read get_all_order cache

/-- Python `str.upper()` on the ASCII strings involved: uppercases each
character of the string. -/
def pyUpper (s : String) : String := ⟨s.data.map Char.toUpper⟩

/-- `do_set_status` (x_Yokogawa_7651.py lines 254-274): the list of Device
Channel writes issued, and the exception raised, if any. -/
def do_set_status (val : String) : List String × Option PyExc :=
  if pyUpper val = "ON" ∨ pyUpper val = "OFF" then
    ((if pyUpper val = "ON" then ["O1"] else ["O0"]) ++ ["E"], none)
  else ([], some .valueError)

/-- Modelled from the spec: the Ramp Controller of the instrument framework
(`Instrument` base class, not in the repository sources), which the driver
engages by declaring `maxstep=step, stepdelay=delay` on the voltage
parameter (x_Yokogawa_7651.py lines 71-73).  `rampWrites s current target`
is the sequence of values written to the Device Channel: while the remaining
delta exceeds the maximum step `s`, move by `s` toward the target, then
finish with a single write of exactly the target; a target equal to the
current value issues no writes. -/
def rampWrites (s current target : ℚ) : List ℚ :=
  if hs : s ≤ 0 then []
  else if ht : target = current then []
  else if hd : |target - current| ≤ s then [target]
  else if hlt : current < target then
    (current + s) :: rampWrites s (current + s) target
  else
    (current - s) :: rampWrites s (current - s) target
termination_by (⌈|target - current| / s⌉).toNat
decreasing_by
  · have hs' : (0 : ℚ) < s := lt_of_not_le hs
    have hd' : s < |target - current| := lt_of_not_le hd
    have habs : |target - current| = target - current := by
      rw [abs_of_pos]; linarith
    have habs2 : |target - (current + s)| = |target - current| - s := by
      rw [habs, abs_of_pos] <;> ring_nf <;> linarith [hd', habs]
    rw [habs2]
    have hdiv : (|target - current| - s) / s = |target - current| / s - 1 := by
      field_simp
    rw [hdiv, Int.ceil_sub_one]
    have h2 : (1 : ℚ) < |target - current| / s := (one_lt_div hs').mpr hd'
    have h3 : (1 : ℤ) < ⌈|target - current| / s⌉ := by
      rw [Int.lt_ceil]; exact_mod_cast h2
    omega
  · have hs' : (0 : ℚ) < s := lt_of_not_le hs
    have hd' : s < |target - current| := lt_of_not_le hd
    have hgt : target < current := lt_of_le_of_ne (le_of_not_lt hlt) ht
    have habs : |target - current| = current - target := by
      rw [abs_of_neg] <;> ring_nf <;> linarith
    have habs2 : |target - (current - s)| = |target - current| - s := by
      rw [habs, abs_of_neg] <;> ring_nf <;> linarith [hd', habs]
    rw [habs2]
    have hdiv : (|target - current| - s) / s = |target - current| / s - 1 := by
      field_simp
    rw [hdiv, Int.ceil_sub_one]
    have h2 : (1 : ℚ) < |target - current| / s := (one_lt_div hs').mpr hd'
    have h3 : (1 : ℤ) < ⌈|target - current| / s⌉ := by
      rw [Int.lt_ceil]; exact_mod_cast h2
    omega

end Yoko

namespace Andor

lemma npMax_nil : npMax [] = 0 := rfl

lemma advLoop_zero (frames : Nat → Except PyExc (List Int)) (bg : Option (List Int))
    (thresh : ℚ) (k : Nat) (last : Option (List Int × Nat)) :
    advLoop frames bg thresh k 0 last =
      match last with
      | none => .error .nameError
      | some (spec, maxpos) =>
        match diagAux spec (diagRange maxpos) with
        | .error e => .error e
        | .ok d => .ok ⟨spec, true, k, d⟩ := by
  simp only [advLoop]

lemma advLoop_succ (frames : Nat → Except PyExc (List Int)) (bg : Option (List Int))
    (thresh : ℚ) (k r : Nat) (last : Option (List Int × Nat)) :
    advLoop frames bg thresh k (r + 1) last =
      match frames k with
      | .error e => .error e
      | .ok f =>
        let spec := procFrame bg f
        if spec.isEmpty then .error .valueError
        else if npMax spec < 100 then .ok ⟨spec, false, k + 1, []⟩
        else if spikeOk spec thresh then .ok ⟨spec, false, k + 1, []⟩
        else advLoop frames bg thresh (k + 1) r (some (spec, npArgmax spec)) := by
  simp only [advLoop]

lemma not_isEmpty_of_npMax (spec : List Int) (h : 100 ≤ npMax spec) :
    spec.isEmpty = false := by
  cases spec with
  | nil => simp [npMax] at h
  | cons x xs => rfl

lemma advLoop_ok_attempts (frames : Nat → Except PyExc (List Int)) (bg : Option (List Int))
    (thresh : ℚ) :
    ∀ (r k : Nat) (last : Option (List Int × Nat)) (res : AcqResult),
      advLoop frames bg thresh k r last = .ok res →
      (res.anomaly = false → k + 1 ≤ res.attempts) ∧
      (res.anomaly = true → res.attempts = k + r) := by
  intro r
  induction r with
  | zero =>
    intro k last res h
    rw [advLoop_zero] at h
    match last with
    | none => simp at h
    | some (spec, maxpos) =>
      simp only at h
      cases hd : diagAux spec (diagRange maxpos) with
      | error e => rw [hd] at h; simp at h
      | ok d =>
        rw [hd] at h
        simp only [Except.ok.injEq] at h
        subst h
        exact ⟨fun hf => by simp at hf, fun _ => rfl⟩
  | succ r ih =>
    intro k last res h
    rw [advLoop_succ] at h
    cases hf : frames k with
    | error e => rw [hf] at h; simp at h
    | ok f =>
      rw [hf] at h
      simp only at h
      by_cases he : (procFrame bg f).isEmpty
      · rw [if_pos he] at h; simp at h
      · rw [if_neg he] at h
        by_cases h100 : npMax (procFrame bg f) < 100
        · rw [if_pos h100] at h
          simp only [Except.ok.injEq] at h
          subst h
          exact ⟨fun _ => le_refl _, fun hf => by simp at hf⟩
        · rw [if_neg h100] at h
          by_cases hok : spikeOk (procFrame bg f) thresh
          · rw [if_pos hok] at h
            simp only [Except.ok.injEq] at h
            subst h
            exact ⟨fun _ => le_refl _, fun hf => by simp at hf⟩
          · rw [if_neg hok] at h
            have := ih (k + 1) _ res h
            exact ⟨fun hf => le_trans (by omega) (this.1 hf),
                   fun ht => by rw [this.2 ht]; omega⟩

lemma spikeOk_iff (spec : List Int) (thresh : ℚ) :
    spikeOk spec thresh = true ↔ acceptCond spec thresh := by
  simp [spikeOk, acceptCond, Bool.or_eq_true, decide_eq_true_eq, beq_iff_eq]

end Andor

namespace Andor

/-- C1: a retrieved frame whose maximum (after optional background
subtraction) reaches the low-signal floor is accepted on that attempt iff
the left neighbour of the maximum position is at or above
`maxval * spike_threshold` or the right neighbour is, a maximum at the first
or last sample passing automatically on the missing side; a frame failing
the test triggers another attempt. -/
theorem get_spectrum_adv_accept_iff (frames : Nat → Except PyExc (List Int))
    (background : Option (List Int)) (thresh : ℚ) (k r : Nat)
    (last : Option (List Int × Nat)) (f : List Int)
    (hf : frames k = .ok f)
    (hmax : 100 ≤ npMax (procFrame background f)) :
    (advLoop frames background thresh k (r + 1) last =
        .ok ⟨procFrame background f, false, k + 1, []⟩ ↔
      acceptCond (procFrame background f) thresh)
    ∧ (¬ acceptCond (procFrame background f) thresh →
        advLoop frames background thresh k (r + 1) last =
          advLoop frames background thresh (k + 1) r
            (some (procFrame background f, npArgmax (procFrame background f)))) := by
  have he := not_isEmpty_of_npMax _ hmax
  have hstep := advLoop_succ frames background thresh k r last
  rw [hf] at hstep
  simp only [he, Bool.false_eq_true, if_false, not_lt.mpr hmax, if_neg (not_lt.mpr hmax)] at hstep
  constructor
  · by_cases hok : spikeOk (procFrame background f) thresh
    · rw [if_pos hok] at hstep
      rw [hstep]
      exact iff_of_true rfl ((spikeOk_iff _ _).mp hok)
    · rw [if_neg hok] at hstep
      rw [hstep]
      constructor
      · intro h
        have h1 := (advLoop_ok_attempts frames background thresh r (k + 1) _ _ h).1
        simp at h1
      · intro hacc
        exact absurd ((spikeOk_iff _ _).mpr hacc) hok
  · intro hacc
    have hok : spikeOk (procFrame background f) thresh = false := by
      rcases Bool.eq_false_or_eq_true (spikeOk (procFrame background f) thresh) with h | h
      · exact absurd ((spikeOk_iff _ _).mp h) hacc
      · exact h
    rw [if_neg (by simp [hok])] at hstep
    exact hstep

/-- Concrete instance of C1: the frame `[0, 150, 100]` peaks at position 1
with right-neighbour support `100 ≥ 150 * 0.15`, so it is accepted on its
attempt. -/
theorem get_spectrum_adv_accept_iff_witness :
    advLoop (fun _ => .ok [0, 150, 100]) none (0.15 : ℚ) 0 3 none =
      .ok ⟨[0, 150, 100], false, 1, []⟩ :=
  (get_spectrum_adv_accept_iff (fun _ => .ok [0, 150, 100]) none (0.15 : ℚ) 0 2 none
      [0, 150, 100] rfl (by decide)).1.mpr (by with_unfolding_all decide)

end Andor

namespace Andor

/-- C5: a first frame whose maximum (after optional background subtraction)
is below the low-signal floor 100 is returned on the first attempt with the
anomaly flag clear; the result does not depend on the spike threshold. -/
theorem get_spectrum_adv_low_signal (frames : Nat → Except PyExc (List Int))
    (background : Option (List Int)) (thresh : ℚ) (n : Nat) (f : List Int)
    (hf : frames 0 = .ok f) (hne : procFrame background f ≠ [])
    (hmax : npMax (procFrame background f) < 100) (hn : 1 ≤ n) :
    get_spectrum_adv frames background n thresh =
      .ok ⟨procFrame background f, false, 1, []⟩ := by
  obtain ⟨m, rfl⟩ : ∃ m, n = m + 1 := ⟨n - 1, by omega⟩
  unfold get_spectrum_adv
  rw [advLoop_succ, hf]
  have he : (procFrame background f).isEmpty = false := by
    cases h : procFrame background f with
    | nil => exact absurd h hne
    | cons x xs => rfl
  simp only [he, Bool.false_eq_true, if_false, if_pos hmax]

/-- Concrete instance of C5: the frame `[1, 2, 3]` has maximum 3 < 100 and
is returned immediately with the anomaly flag clear. -/
theorem get_spectrum_adv_low_signal_witness :
    get_spectrum_adv (fun _ => .ok [1, 2, 3]) none 3 (0.15 : ℚ) =
      .ok ⟨[1, 2, 3], false, 1, []⟩ :=
  get_spectrum_adv_low_signal (fun _ => .ok [1, 2, 3]) none (0.15 : ℚ) 3 [1, 2, 3]
    rfl (by decide) (by decide) (by decide)

/-- C9: with `ntries = 0` (Python `range(ntries)` is empty for every
`ntries ≤ 0`) the loop body never runs, and the diagnostic code fails on the
unbound variable `maxpos` — a `NameError` — instead of returning a frame. -/
theorem get_spectrum_adv_zero_tries (frames : Nat → Except PyExc (List Int))
    (background : Option (List Int)) (thresh : ℚ) :
    get_spectrum_adv frames background 0 thresh = .error .nameError := rfl

/-- C2: evaluation at the failing input.  Every attempt retrieves
`[0, 200, 0]`, which the spike heuristic rejects (maximum 200 at position 1,
both neighbours 0 < 30); on exhaustion the diagnostic loop indexes
`spec[-4]`, which is out of range for a length-3 buffer, so the call raises
`IndexError` instead of returning the last frame. -/
theorem get_spectrum_adv_exhaustion_crash :
    get_spectrum_adv (fun _ => .ok [0, 200, 0]) none 3 (0.15 : ℚ) =
      .error .indexError := by
  with_unfolding_all rfl

end Andor

namespace Andor

lemma foldl_max_mem (x : Int) (xs : List Int) : xs.foldl max x ∈ x :: xs := by
  induction xs generalizing x with
  | nil => simp
  | cons y ys ih =>
    have h := ih (max x y)
    simp only [List.foldl_cons]
    rcases List.mem_cons.mp h with h1 | h1
    · rcases max_choice x y with h2 | h2 <;> rw [h1, h2] <;> simp
    · simp [h1]

lemma npMax_mem (l : List Int) (h : l ≠ []) : npMax l ∈ l := by
  cases l with
  | nil => exact absurd rfl h
  | cons x xs => exact foldl_max_mem x xs

lemma npArgmax_lt_length (l : List Int) (h : l ≠ []) : npArgmax l < l.length := by
  unfold npArgmax
  exact List.indexOf_lt_length.mpr (npMax_mem l h)

lemma ne_nil_of_npMax (spec : List Int) (h : 100 ≤ npMax spec) : spec ≠ [] := by
  intro hc
  rw [hc] at h
  simp [npMax] at h

lemma spikeOk_false_bounds (spec : List Int) (thresh : ℚ)
    (h : spikeOk spec thresh = false) :
    npArgmax spec ≠ 0 ∧ npArgmax spec ≠ spec.length - 1 := by
  simp only [spikeOk, Bool.or_eq_false_iff, beq_eq_false_iff_ne] at h
  exact ⟨h.1.1, h.2.1⟩

lemma advLoop_const_reject (f : List Int) (bg : Option (List Int)) (thresh : ℚ)
    (hmax : 100 ≤ npMax (procFrame bg f))
    (hrej : spikeOk (procFrame bg f) thresh = false) :
    ∀ (r k : Nat) (last : Option (List Int × Nat)), 1 ≤ r →
      advLoop (fun _ => .ok f) bg thresh k r last =
        match diagAux (procFrame bg f) (diagRange (npArgmax (procFrame bg f))) with
        | .error e => .error e
        | .ok d => .ok ⟨procFrame bg f, true, k + r, d⟩ := by
  intro r
  induction r with
  | zero => intro k last h; omega
  | succ r ih =>
    intro k last _
    rw [advLoop_succ]
    have he := not_isEmpty_of_npMax _ hmax
    simp only [he, Bool.false_eq_true, if_false, if_neg (not_lt.mpr hmax), hrej]
    rcases Nat.eq_zero_or_pos r with rfl | hr
    · rw [advLoop_zero]
    · rw [ih (k + 1) _ hr]
      have hadd : k + 1 + r = k + (r + 1) := by omega
      rw [hadd]

lemma diagAux_error_of_mem (spec : List Int) :
    ∀ (idxs : List Int) (i : Int), i ∈ idxs → pyIndex spec i = none →
      diagAux spec idxs = .error .indexError := by
  intro idxs
  induction idxs with
  | nil => intro i h _; simp at h
  | cons a rest ih =>
    intro i h hnone
    rcases List.mem_cons.mp h with rfl | h1
    · simp [diagAux, hnone]
    · simp only [diagAux]
      rw [ih i h1 hnone]
      cases pyIndex spec a <;> rfl

lemma diagAux_eq_map (spec : List Int) :
    ∀ idxs : List Int, (∀ i ∈ idxs, (pyIndex spec i).isSome) →
      diagAux spec idxs = .ok (idxs.map (fun i => (i, (pyIndex spec i).getD 0))) := by
  intro idxs
  induction idxs with
  | nil => intro _; rfl
  | cons a rest ih =>
    intro h
    have ha := h a (List.mem_cons_self a rest)
    obtain ⟨v, hv⟩ := Option.isSome_iff_exists.mp ha
    simp only [diagAux, hv, ih (fun i hi => h i (List.mem_cons_of_mem a hi)),
      List.map_cons]
    simp [hv]

end Andor

namespace Andor

lemma mem_diagRange (maxpos : Nat) (i : Int) :
    i ∈ diagRange maxpos ↔ (maxpos : Int) - 5 ≤ i ∧ i < (maxpos : Int) + 5 := by
  constructor
  · intro h
    rw [diagRange, List.mem_map] at h
    obtain ⟨a, ha, rfl⟩ := h
    rw [List.mem_range] at ha
    omega
  · rintro ⟨h1, h2⟩
    rw [diagRange, List.mem_map]
    refine ⟨(i - ((maxpos : Int) - 5)).toNat, ?_, ?_⟩
    · rw [List.mem_range]; omega
    · omega

/-- C10: on exhaustion the diagnostic loop indexes the last rejected frame
at positions `maxpos-5` through `maxpos+4`; when the maximum position is
within 4 samples of the end of the buffer this raises `IndexError` instead
of returning the frame, while the negative indices that occur for a maximum
position within 5 samples of the start silently read from the opposite end
of the buffer. -/
theorem get_spectrum_adv_diag_indexing (f : List Int) (bg : Option (List Int))
    (thresh : ℚ) (n : Nat) (hn : 1 ≤ n)
    (hmax : 100 ≤ npMax (procFrame bg f))
    (hrej : spikeOk (procFrame bg f) thresh = false) :
    ((procFrame bg f).length ≤ npArgmax (procFrame bg f) + 4 →
      get_spectrum_adv (fun _ => .ok f) bg n thresh = .error .indexError)
    ∧ (npArgmax (procFrame bg f) + 4 < (procFrame bg f).length →
        get_spectrum_adv (fun _ => .ok f) bg n thresh =
          .ok ⟨procFrame bg f, true, n,
            (diagRange (npArgmax (procFrame bg f))).map
              (fun i => (i, (pyIndex (procFrame bg f) i).getD 0))⟩
        ∧ ∀ i ∈ diagRange (npArgmax (procFrame bg f)), i < 0 →
            pyIndex (procFrame bg f) i =
              (procFrame bg f).get? (((procFrame bg f).length : Int) + i).toNat) := by
  have hmain := advLoop_const_reject f bg thresh hmax hrej n 0 none hn
  have hpos : npArgmax (procFrame bg f) ≠ 0 := (spikeOk_false_bounds _ _ hrej).1
  constructor
  · intro hend
    have hi : pyIndex (procFrame bg f) ((npArgmax (procFrame bg f) : Int) - 5 + 9) = none := by
      unfold pyIndex
      rw [if_pos (by omega : (0 : Int) ≤ (npArgmax (procFrame bg f) : Int) - 5 + 9)]
      rw [List.get?_eq_none]
      omega
    have hmem : ((npArgmax (procFrame bg f) : Int) - 5 + 9) ∈
        diagRange (npArgmax (procFrame bg f)) :=
      (mem_diagRange _ _).mpr ⟨by omega, by omega⟩
    unfold get_spectrum_adv
    rw [hmain, diagAux_error_of_mem _ _ _ hmem hi]
  · intro hin
    have hvalid : ∀ i ∈ diagRange (npArgmax (procFrame bg f)),
        (pyIndex (procFrame bg f) i).isSome := by
      intro i hi
      rw [mem_diagRange] at hi
      unfold pyIndex
      by_cases h0 : (0 : Int) ≤ i
      · rw [if_pos h0]
        rw [Option.isSome_iff_ne_none, ne_eq, List.get?_eq_none]
        omega
      · have h1 : -i ≤ ((procFrame bg f).length : Int) := by omega
        rw [if_neg h0, if_pos h1]
        rw [Option.isSome_iff_ne_none, ne_eq, List.get?_eq_none]
        omega
    refine ⟨?_, ?_⟩
    · unfold get_spectrum_adv
      rw [hmain, diagAux_eq_map _ _ hvalid]
      rw [Nat.zero_add]
    · intro i hi hneg
      rw [mem_diagRange] at hi
      unfold pyIndex
      rw [if_neg (not_le.mpr hneg), if_pos (by omega : -i ≤ ((procFrame bg f).length : Int))]

end Andor

namespace Andor

/-- Concrete instance of C10: the rejected frame `[0, 200, 0, 0, 0, 0]` has
its maximum at position 1, so the diagnostic indices start at -4 and wrap to
the end of the buffer, and the frame is returned with the anomaly flag set. -/
theorem get_spectrum_adv_diag_indexing_witness :
    get_spectrum_adv (fun _ => .ok [0, 200, 0, 0, 0, 0]) none 1 (0.15 : ℚ) =
      .ok ⟨[0, 200, 0, 0, 0, 0], true, 1,
        (diagRange (npArgmax [0, 200, 0, 0, 0, 0])).map
          (fun i => (i, (pyIndex [0, 200, 0, 0, 0, 0] i).getD 0))⟩ :=
  ((get_spectrum_adv_diag_indexing [0, 200, 0, 0, 0, 0] none (0.15 : ℚ) 1
      (by decide) (by decide) (by with_unfolding_all rfl)).2 (by decide)).1

lemma acqWait_error (c : AndorCalls) (e : PyExc) :
    ∀ (k fuel start : Nat),
      (∀ j, j < k → ∃ r, c.GetStatus (start + j) = .ok (r, DRV_ACQUIRING)) →
      c.GetStatus (start + k) = .error e → k < fuel →
      acqWait c start fuel = .error e := by
  intro k
  induction k with
  | zero =>
    intro fuel start _ herr hf
    obtain ⟨f, rfl⟩ : ∃ f, fuel = f + 1 := ⟨fuel - 1, by omega⟩
    simp only [acqWait, get_status]
    rw [Nat.add_zero] at herr
    rw [herr]
  | succ k ih =>
    intro fuel start hok herr hf
    obtain ⟨f, rfl⟩ : ∃ f, fuel = f + 1 := ⟨fuel - 1, by omega⟩
    obtain ⟨r, hr⟩ := hok 0 (by omega)
    rw [Nat.add_zero] at hr
    simp only [acqWait, get_status, hr, if_pos rfl]
    have hok1 : ∀ j, j < k → ∃ r, c.GetStatus (start + 1 + j) = .ok (r, DRV_ACQUIRING) := by
      intro j hj
      have := hok (j + 1) (by omega)
      rwa [show start + (j + 1) = start + 1 + j by omega] at this
    have herr1 : c.GetStatus (start + 1 + k) = .error e := by
      rwa [show start + (k + 1) = start + 1 + k by omega] at herr
    exact ih f (start + 1) hok1 herr1 (by omega)

lemma advLoop_frames_error (frames : Nat → Except PyExc (List Int))
    (bg : Option (List Int)) (thresh : ℚ) (e : PyExc) :
    ∀ (k : Nat) (start r : Nat) (last : Option (List Int × Nat)),
      (∀ j, j < k → ∃ fj, frames (start + j) = .ok fj ∧ procFrame bg fj ≠ []
        ∧ 100 ≤ npMax (procFrame bg fj) ∧ spikeOk (procFrame bg fj) thresh = false) →
      frames (start + k) = .error e → k < r →
      advLoop frames bg thresh start r last = .error e := by
  intro k
  induction k with
  | zero =>
    intro start r last _ herr hr
    obtain ⟨r', rfl⟩ : ∃ r', r = r' + 1 := ⟨r - 1, by omega⟩
    rw [Nat.add_zero] at herr
    rw [advLoop_succ, herr]
  | succ k ih =>
    intro start r last hok herr hr
    obtain ⟨r', rfl⟩ : ∃ r', r = r' + 1 := ⟨r - 1, by omega⟩
    obtain ⟨f0, hf0, hne0, hmax0, hrej0⟩ := hok 0 (by omega)
    rw [Nat.add_zero] at hf0
    rw [advLoop_succ, hf0]
    have he := not_isEmpty_of_npMax _ hmax0
    simp only [he, Bool.false_eq_true, if_false, if_neg (not_lt.mpr hmax0), hrej0]
    have hok1 : ∀ j, j < k → ∃ fj, frames (start + 1 + j) = .ok fj ∧ procFrame bg fj ≠ []
        ∧ 100 ≤ npMax (procFrame bg fj) ∧ spikeOk (procFrame bg fj) thresh = false := by
      intro j hj
      have := hok (j + 1) (by omega)
      rwa [show start + (j + 1) = start + 1 + j by omega] at this
    have herr1 : frames (start + 1 + k) = .error e := by
      rwa [show start + (k + 1) = start + 1 + k by omega] at herr
    exact ih (start + 1) r' _ hok1 herr1 (by omega)

end Andor

namespace Andor

/-- C3 as stated fails: a buffer retrieval whose DLL call reports the
failure code `DRV_P1INVALID` is not surfaced to the caller — `get_spectrum`
returns the untouched zero buffer as an ordinary success, because every DLL
return code `ret` in the driver is discarded. -/
theorem get_spectrum_swallows_error_code :
    get_spectrum failingFetchChannel 4 1 = .ok [0, 0, 0, 0]
    ∧ failingFetchChannel.GetAcquiredData 4 = .ok (DRV_P1INVALID, [0, 0, 0, 0])
    ∧ DRV_P1INVALID ≠ DRV_SUCCESS := by
  refine ⟨rfl, rfl, by decide⟩

/-- C3 amended: Python exceptions raised by the channel during any phase
propagate uncaught to the immediate caller (there is no handler anywhere in
the driver), and the anomaly-retry loop never retries after such a failure —
it retries only on successfully retrieved but suspect frames; DLL return
codes, however, are discarded at every phase, so failures signalled by
return code are not surfaced. -/
theorem andor_error_propagation :
    (∀ (c : AndorCalls) (xpix fuel : Nat) (e : PyExc),
        c.StartAcquisition = .error e → get_spectrum c xpix fuel = .error e)
    ∧ (∀ (c : AndorCalls) (xpix fuel k : Nat) (e : PyExc) (r0 : Int),
        c.StartAcquisition = .ok r0 →
        (∀ j, j < k → ∃ r, c.GetStatus j = .ok (r, DRV_ACQUIRING)) →
        c.GetStatus k = .error e → k < fuel →
        get_spectrum c xpix fuel = .error e)
    ∧ (∀ (c : AndorCalls) (xpix fuel : Nat) (e : PyExc) (r0 : Int),
        c.StartAcquisition = .ok r0 → acqWait c 0 fuel = .ok () →
        c.GetAcquiredData xpix = .error e →
        get_spectrum c xpix fuel = .error e)
    ∧ (∀ (frames : Nat → Except PyExc (List Int)) (bg : Option (List Int))
        (thresh : ℚ) (n k : Nat) (e : PyExc),
        k < n →
        (∀ j, j < k → ∃ fj, frames j = .ok fj ∧ procFrame bg fj ≠ []
          ∧ 100 ≤ npMax (procFrame bg fj) ∧ spikeOk (procFrame bg fj) thresh = false) →
        frames k = .error e →
        get_spectrum_adv frames bg n thresh = .error e)
    ∧ (∀ (c : AndorCalls) (k : Nat) (ret s : Int),
        c.GetStatus k = .ok (ret, s) → get_status c k = .ok s)
    ∧ (∀ (c : AndorCalls) (n : Nat) (ret : Int) (d : List Int),
        c.GetAcquiredData n = .ok (ret, d) → get_acquired_data c n = .ok d) := by
  refine ⟨?_, ?_, ?_, ?_, ?_, ?_⟩
  · intro c xpix fuel e hstart
    unfold get_spectrum start_acquisition
    rw [hstart]
  · intro c xpix fuel k e r0 hstart hok herr hf
    unfold get_spectrum start_acquisition
    rw [hstart]
    have hw : acqWait c 0 fuel = .error e := by
      have := acqWait_error c e k fuel 0 (by intro j hj; simpa using hok j hj)
        (by simpa using herr) hf
      exact this
    rw [hw]
  · intro c xpix fuel e r0 hstart hwait hfetch
    unfold get_spectrum start_acquisition
    rw [hstart, hwait]
    unfold get_acquired_data
    rw [hfetch]
  · intro frames bg thresh n k e hk hok herr
    unfold get_spectrum_adv
    exact advLoop_frames_error frames bg thresh e k 0 n none
      (by intro j hj; simpa using hok j hj) (by simpa using herr) hk
  · intro c k ret s h
    unfold get_status
    rw [h]
  · intro c n ret d h
    unfold get_acquired_data
    rw [h]

/-- Concrete instance of the C3 amended claim: a channel exception on the
second retrieval, after a first successful-but-rejected frame, propagates
out of `get_spectrum_adv` unhandled. -/
theorem andor_error_propagation_witness :
    get_spectrum_adv (fun j => if j = 0 then .ok [0, 200, 0] else .error (.channelExc 7))
      none 3 (0.15 : ℚ) = .error (.channelExc 7) :=
  andor_error_propagation.2.2.2.1
    (fun j => if j = 0 then .ok [0, 200, 0] else .error (.channelExc 7))
    none (0.15 : ℚ) 3 1 (.channelExc 7) (by decide)
    (fun j hj => by
      have hj0 : j = 0 := by omega
      subst hj0
      exact ⟨[0, 200, 0], rfl, by decide, by decide, by with_unfolding_all rfl⟩)
    rfl

end Andor

namespace Andor

lemma lt_numPolls_iff (delay : ℚ) (k : Nat) :
    k < numPolls delay ↔ (k : ℚ) / 2 < delay := by
  unfold numPolls
  rw [div_lt_iff (by norm_num : (0 : ℚ) < 2)]
  constructor
  · intro h
    have h2 : (k : Int) < ⌈2 * delay⌉ := by omega
    have h3 := Int.lt_ceil.mp h2
    push_cast at h3
    linarith
  · intro h
    have h2 : ((k : Int) : ℚ) < 2 * delay := by push_cast; linarith
    have h3 := Int.lt_ceil.mpr h2
    omega

lemma wait_idle_loop_true_iff (status : Nat → Int) (delay : ℚ) :
    ∀ (fuel k : Nat),
      wait_idle_loop status delay k fuel = true ↔
        ∃ j, k ≤ j ∧ j < k + fuel ∧ (j : ℚ) / 2 < delay ∧ status j = DRV_IDLE := by
  intro fuel
  induction fuel with
  | zero =>
    intro k
    simp only [wait_idle_loop]
    refine iff_of_false (by simp) ?_
    rintro ⟨j, h1, h2, _, _⟩
    omega
  | succ f ih =>
    intro k
    rw [wait_idle_loop]
    by_cases hk : (k : ℚ) / 2 < delay
    · rw [if_pos hk]
      by_cases hs : status k = DRV_IDLE
      · rw [if_pos hs]
        simp only [true_iff]
        exact ⟨k, le_refl k, by omega, hk, hs⟩
      · rw [if_neg hs, ih (k + 1)]
        constructor
        · rintro ⟨j, h1, h2, h3, h4⟩
          exact ⟨j, by omega, by omega, h3, h4⟩
        · rintro ⟨j, h1, h2, h3, h4⟩
          refine ⟨j, ?_, by omega, h3, h4⟩
          rcases Nat.eq_or_lt_of_le h1 with rfl | h
          · exact absurd h4 hs
          · omega
    · rw [if_neg hk]
      refine iff_of_false (by simp) ?_
      rintro ⟨j, h1, _, h3, _⟩
      have : (k : ℚ) / 2 ≤ (j : ℚ) / 2 := by
        have : (k : ℚ) ≤ (j : ℚ) := by exact_mod_cast h1
        linarith
      exact hk (lt_of_le_of_lt this h3)

/-- C6: `wait_idle` polls the device status every half second and returns
`True` exactly when some poll within the `delay` window reports `DRV_IDLE`,
and `False` exactly when the window elapses with no poll reporting idle —
the timeout is reported to the caller, never silently retried. -/
theorem wait_idle_spec (status : Nat → Int) (delay : ℚ) :
    (wait_idle status delay = true ↔
      ∃ k : Nat, (k : ℚ) / 2 < delay ∧ status k = DRV_IDLE)
    ∧ (wait_idle status delay = false ↔
      ∀ k : Nat, (k : ℚ) / 2 < delay → status k ≠ DRV_IDLE) := by
  have hmain : wait_idle status delay = true ↔
      ∃ k : Nat, (k : ℚ) / 2 < delay ∧ status k = DRV_IDLE := by
    unfold wait_idle
    rw [wait_idle_loop_true_iff]
    constructor
    · rintro ⟨j, _, _, h3, h4⟩
      exact ⟨j, h3, h4⟩
    · rintro ⟨j, h1, h2⟩
      exact ⟨j, by omega, by
        have := (lt_numPolls_iff delay j).mpr h1
        omega, h1, h2⟩
  refine ⟨hmain, ?_⟩
  rw [← Bool.not_eq_true, hmain]
  push_neg
  simp only [ne_eq]

/-- Concrete instance of C6: a device that reports idle on the first poll
makes `wait_idle` return `True` within the default 30-second window. -/
theorem wait_idle_spec_witness :
    wait_idle (fun _ => DRV_IDLE) 30 = true :=
  (wait_idle_spec (fun _ => DRV_IDLE) 30).1.mpr ⟨0, by norm_num, rfl⟩

end Andor

namespace Yoko

lemma get_all_go_ok (read : String → Except PyExc ℚ) :
    ∀ (ps : List String) (cache : String → Option ℚ),
      (∀ p ∈ ps, ∃ v, read p = .ok v) →
      (get_all_go read ps cache).2 = none
      ∧ (∀ q, q ∉ ps → (get_all_go read ps cache).1 q = cache q)
      ∧ (∀ q ∈ ps, ∃ v, read q = .ok v ∧ (get_all_go read ps cache).1 q = some v) := by
  intro ps
  induction ps with
  | nil =>
    intro cache _
    refine ⟨rfl, fun q _ => rfl, fun q hq => absurd hq (List.not_mem_nil q)⟩
  | cons p rest ih =>
    intro cache h
    obtain ⟨v, hv⟩ := h p (List.mem_cons_self p rest)
    have hrest : ∀ q ∈ rest, ∃ w, read q = .ok w :=
      fun q hq => h q (List.mem_cons_of_mem p hq)
    have hgo : get_all_go read (p :: rest) cache =
        get_all_go read rest (fun q => if q = p then some v else cache q) := by
      simp only [get_all_go, hv]
    obtain ⟨ih1, ih2, ih3⟩ := ih (fun q => if q = p then some v else cache q) hrest
    refine ⟨by rw [hgo]; exact ih1, ?_, ?_⟩
    · intro q hq
      rw [hgo, ih2 q (fun hc => hq (List.mem_cons_of_mem p hc))]
      rw [if_neg (fun hc => hq (by rw [hc]; exact List.mem_cons_self p rest))]
    · intro q hq
      by_cases hqr : q ∈ rest
      · obtain ⟨w, hw1, hw2⟩ := ih3 q hqr
        exact ⟨w, hw1, by rw [hgo]; exact hw2⟩
      · have hqp : q = p := by
          rcases List.mem_cons.mp hq with h1 | h1
          · exact h1
          · exact absurd h1 hqr
        subst hqp
        refine ⟨v, hv, ?_⟩
        rw [hgo, ih2 q hqr, if_pos rfl]

lemma get_all_go_err (read : String → Except PyExc ℚ) (e : PyExc) :
    ∀ (k : Nat) (ps : List String) (cache : String → Option ℚ),
      k < ps.length →
      (∀ j, j < k → ∃ v, read (ps.getD j ("")) = .ok v) →
      read (ps.getD k ("")) = .error e →
      (get_all_go read ps cache).2 = some e
      ∧ (∀ q, q ∉ ps.take k → (get_all_go read ps cache).1 q = cache q)
      ∧ (∀ q ∈ ps.take k, ∃ v, read q = .ok v ∧ (get_all_go read ps cache).1 q = some v) := by
  intro k
  induction k with
  | zero =>
    intro ps cache hlen _ herr
    obtain ⟨p, rest, rfl⟩ : ∃ p rest, ps = p :: rest := by
      cases ps with
      | nil => simp at hlen
      | cons p rest => exact ⟨p, rest, rfl⟩
    simp only [List.getD_cons_zero] at herr
    have hgo : get_all_go read (p :: rest) cache = (cache, some e) := by
      simp only [get_all_go, herr]
    refine ⟨by rw [hgo], fun q _ => by rw [hgo], fun q hq => by simp at hq⟩
  | succ k ih =>
    intro ps cache hlen hok herr
    obtain ⟨p, rest, rfl⟩ : ∃ p rest, ps = p :: rest := by
      cases ps with
      | nil => simp at hlen
      | cons p rest => exact ⟨p, rest, rfl⟩
    obtain ⟨v, hv⟩ := hok 0 (by omega)
    simp only [List.getD_cons_zero] at hv
    have hgo : get_all_go read (p :: rest) cache =
        get_all_go read rest (fun q => if q = p then some v else cache q) := by
      simp only [get_all_go, hv]
    have hok1 : ∀ j, j < k → ∃ w, read (rest.getD j ("")) = .ok w := by
      intro j hj
      have := hok (j + 1) (by omega)
      simpa only [List.getD_cons_succ] using this
    have herr1 : read (rest.getD k ("")) = .error e := by
      simpa only [List.getD_cons_succ] using herr
    obtain ⟨ih1, ih2, ih3⟩ := ih rest (fun q => if q = p then some v else cache q)
      (by simpa using hlen) hok1 herr1
    refine ⟨by rw [hgo]; exact ih1, ?_, ?_⟩
    · intro q hq
      simp only [List.take_succ_cons, List.mem_cons, not_or] at hq
      rw [hgo, ih2 q hq.2, if_neg hq.1]
    · intro q hq
      simp only [List.take_succ_cons, List.mem_cons] at hq
      by_cases hqr : q ∈ rest.take k
      · obtain ⟨w, hw1, hw2⟩ := ih3 q hqr
        exact ⟨w, hw1, by rw [hgo]; exact hw2⟩
      · have hqp : q = p := by tauto
        subst hqp
        refine ⟨v, hv, ?_⟩
        rw [hgo, ih2 q hqr, if_pos rfl]

end Yoko

namespace Yoko

/-- C4 as stated fails: `get_all` does not read in descriptor-declaration
order — the declaration order of the read-accessible parameters is
`range, voltage, current_limit`, but `get_all` reads `voltage` first. -/
theorem get_all_order_ne_declaration : get_all_order ≠ declarationReadOrder := by
  decide

/-- C4 amended: `get_all` reads every read-accessible parameter exactly once
— `voltage`, then `range`, then `current_limit`, which is a permutation of,
but not equal to, the declaration order — skipping the write-only `status`
parameter; all reads succeeding updates every cache entry, and on the first
read error it stops with that error, leaving cache entries updated by
earlier successful reads intact and all other entries unchanged. -/
theorem get_all_spec :
    (get_all_order = ["voltage", "range", "current_limit"]
      ∧ get_all_order.Perm declarationReadOrder
      ∧ "status" ∉ get_all_order)
    ∧ (∀ (read : String → Except PyExc ℚ) (cache : String → Option ℚ),
        (∀ p ∈ get_all_order, ∃ v, read p = .ok v) →
        (get_all read cache).2 = none
        ∧ ∀ q ∈ get_all_order, ∃ v, read q = .ok v ∧ (get_all read cache).1 q = some v)
    ∧ (∀ (read : String → Except PyExc ℚ) (cache : String → Option ℚ) (e : PyExc)
        (k : Nat), k < get_all_order.length →
        (∀ j, j < k → ∃ v, read (get_all_order.getD j ("")) = .ok v) →
        read (get_all_order.getD k ("")) = .error e →
        (get_all read cache).2 = some e
        ∧ (∀ q, q ∉ get_all_order.take k → (get_all read cache).1 q = cache q)
        ∧ (∀ q ∈ get_all_order.take k,
            ∃ v, read q = .ok v ∧ (get_all read cache).1 q = some v)) := by
  refine ⟨⟨rfl, by decide, by decide⟩, ?_, ?_⟩
  · intro read cache h
    obtain ⟨h1, _, h3⟩ := get_all_go_ok read get_all_order cache h
    exact ⟨h1, h3⟩
  · intro read cache e k hk hok herr
    exact get_all_go_err read e k get_all_order cache hk hok herr

/-- Concrete instance of the C4 amended claim: when the `range` read fails
after a successful `voltage` read, `get_all` surfaces the error, keeps the
freshly cached voltage, and leaves `current_limit` untouched. -/
theorem get_all_spec_witness :
    (get_all (fun p => if p = "voltage" then .ok 1 else .error (.channelExc 2))
      (fun _ => none)).2 = some (.channelExc 2)
    ∧ (get_all (fun p => if p = "voltage" then .ok 1 else .error (.channelExc 2))
      (fun _ => none)).1 ("voltage") = some 1
    ∧ (get_all (fun p => if p = "voltage" then .ok 1 else .error (.channelExc 2))
      (fun _ => none)).1 ("current_limit") = none := by
  have h := get_all_spec.2.2 (fun p => if p = "voltage" then .ok 1 else .error (.channelExc 2))
    (fun _ => none) (.channelExc 2) 1 (by decide)
    (fun j hj => by
      have hj0 : j = 0 := by omega
      subst hj0
      exact ⟨1, rfl⟩)
    rfl
  exact ⟨h.1, rfl, h.2.1 ("current_limit") (by decide)⟩

/-- C7: setting the status parameter with any value whose uppercasing is not
ON or OFF raises `ValueError` before any Device Channel write is issued; a
valid value issues exactly the corresponding output command followed by the
trigger command. -/
theorem do_set_status_spec (val : String) :
    (pyUpper val ≠ "ON" → pyUpper val ≠ "OFF" →
      do_set_status val = ([], some .valueError))
    ∧ (pyUpper val = "ON" → do_set_status val = (["O1", "E"], none))
    ∧ (pyUpper val = "OFF" → do_set_status val = (["O0", "E"], none)) := by
  refine ⟨?_, ?_, ?_⟩
  · intro h1 h2
    unfold do_set_status
    rw [if_neg (by tauto)]
  · intro h
    unfold do_set_status
    rw [if_pos (Or.inl h), if_pos h]
    rfl
  · intro h
    have hne : pyUpper val ≠ "ON" := by rw [h]; decide
    unfold do_set_status
    rw [if_pos (Or.inr h), if_neg hne]
    rfl

/-- Concrete instances of C7: a mixed-case `oFf` issues exactly the off
command and the trigger, and an invalid value raises `ValueError` with no
writes issued. -/
theorem do_set_status_spec_witness :
    do_set_status ("oFf") = (["O0", "E"], none)
    ∧ do_set_status ("burp") = ([], some .valueError) :=
  ⟨(do_set_status_spec ("oFf")).2.2 (by decide),
   (do_set_status_spec ("burp")).1 (by decide) (by decide)⟩

end Yoko

namespace Yoko

/-- C8: every write of a ramp differs from the previously written value
(starting from `current`) by at most the maximum step, the written values
move monotonically toward the target without overshoot, and the final write
is exactly the target; a target equal to the current value issues no
writes. -/
theorem ramp_spec (s c t : ℚ) (hs : 0 < s) :
    List.Chain' (fun a b => |b - a| ≤ s) (c :: rampWrites s c t)
    ∧ (c ≤ t → List.Chain' (fun a b => a ≤ b) (c :: rampWrites s c t)
        ∧ ∀ x ∈ rampWrites s c t, x ≤ t)
    ∧ (t ≤ c → List.Chain' (fun a b => b ≤ a) (c :: rampWrites s c t)
        ∧ ∀ x ∈ rampWrites s c t, t ≤ x)
    ∧ (t ≠ c → (rampWrites s c t).getLast? = some t)
    ∧ (t = c → rampWrites s c t = []) := by
  induction c, t using rampWrites.induct s with
  | case1 c t h0 => exact absurd hs (by linarith)
  | case2 t h0 =>
    have hunf : rampWrites s t t = [] := by
      rw [rampWrites]
      rw [dif_neg h0, dif_pos rfl]
    rw [hunf]
    refine ⟨List.chain'_singleton t, ?_, ?_, ?_, fun _ => rfl⟩
    · intro _; exact ⟨List.chain'_singleton t, by simp⟩
    · intro _; exact ⟨List.chain'_singleton t, by simp⟩
    · intro h; exact absurd rfl h
  | case3 c t h0 ht hd =>
    have hunf : rampWrites s c t = [t] := by
      rw [rampWrites]
      rw [dif_neg h0, dif_neg ht, dif_pos hd]
    rw [hunf]
    refine ⟨?_, ?_, ?_, fun _ => rfl, fun h => absurd h ht⟩
    · exact List.chain'_pair.mpr hd
    · intro hct
      exact ⟨List.chain'_pair.mpr hct, by simp⟩
    · intro htc
      exact ⟨List.chain'_pair.mpr htc, by simp⟩
  | case4 c t h0 ht hd hct ih =>
    have hunf : rampWrites s c t = (c + s) :: rampWrites s (c + s) t := by
      rw [rampWrites]
      rw [dif_neg h0, dif_neg ht, dif_neg hd, dif_pos hct]
    have habs : |t - c| = t - c := abs_of_pos (by linarith)
    have hlt : c + s < t := by
      rw [habs] at hd
      linarith [lt_of_not_le hd]
    have hne : t ≠ c + s := by linarith
    obtain ⟨ih1, ih2, _, ih4, _⟩ := ih
    rw [hunf]
    refine ⟨?_, ?_, ?_, ?_, fun h => absurd h ht⟩
    · rw [List.chain'_cons]
      refine ⟨by rw [show c + s - c = s by ring, abs_of_pos hs], ih1⟩
    · intro _
      obtain ⟨ihc, ihm⟩ := ih2 (by linarith)
      refine ⟨?_, ?_⟩
      · rw [List.chain'_cons]
        exact ⟨by linarith, ihc⟩
      · intro x hx
        rcases List.mem_cons.mp hx with rfl | hx1
        · linarith
        · exact ihm x hx1
    · intro htc
      exact absurd htc (by linarith)
    · intro _
      have hlast := ih4 hne
      cases hrest : rampWrites s (c + s) t with
      | nil => rw [hrest] at hlast; simp at hlast
      | cons a as =>
        rw [hrest] at hlast
        rw [List.getLast?_cons_cons]
        exact hlast
  | case5 c t h0 ht hd hct ih =>
    have htc : t < c := lt_of_le_of_ne (le_of_not_lt hct) ht
    have hunf : rampWrites s c t = (c - s) :: rampWrites s (c - s) t := by
      rw [rampWrites]
      rw [dif_neg h0, dif_neg ht, dif_neg hd, dif_neg hct]
    have habs : |t - c| = c - t := by
      rw [abs_of_neg (by linarith)]; ring
    have hlt : t < c - s := by
      rw [habs] at hd
      linarith [lt_of_not_le hd]
    have hne : t ≠ c - s := by linarith
    obtain ⟨ih1, _, ih3, ih4, _⟩ := ih
    rw [hunf]
    refine ⟨?_, ?_, ?_, ?_, fun h => absurd h ht⟩
    · rw [List.chain'_cons]
      refine ⟨by rw [show c - s - c = -s by ring, abs_neg, abs_of_pos hs], ih1⟩
    · intro hct2
      exact absurd hct2 (by linarith)
    · intro _
      obtain ⟨ihc, ihm⟩ := ih3 (by linarith)
      refine ⟨?_, ?_⟩
      · rw [List.chain'_cons]
        exact ⟨by linarith, ihc⟩
      · intro x hx
        rcases List.mem_cons.mp hx with rfl | hx1
        · linarith
        · exact ihm x hx1
    · intro _
      have hlast := ih4 hne
      cases hrest : rampWrites s (c - s) t with
      | nil => rw [hrest] at hlast; simp at hlast
      | cons a as =>
        rw [hrest] at hlast
        rw [List.getLast?_cons_cons]
        exact hlast

/-- Concrete instance of C8: ramping from 0 toward 5/2 with maximum step 1
ends exactly on the target. -/
theorem ramp_spec_witness :
    (Yoko.rampWrites 1 0 (5/2)).getLast? = some (5/2) :=
  (ramp_spec 1 0 (5/2) (by norm_num)).2.2.2.1 (by norm_num)

end Yoko
